import Mathlib

/-!
Verification development for the looper-pedal audio engine
(`lib/lem.py`, `lib/tracks.py`, `lib/utils.py`, `lib/constants.py`).

Modelling conventions (shallow embedding):

* One audio frame (`CHANNELS = 2` int16 samples) is a pair of integers.
  The int16 width never matters for any statement below, so samples are
  unbounded integers.
* `numpy` arrays of frames are Lean lists of frames; `np.concatenate` is
  list append; Python slicing `a[i:j]` is `(List.take j).drop i` (with
  Python's negative-index normalisation where negative bounds can occur).
* Python integers are `Int`; non-negative counters (`current_frame`,
  buffer indices, lengths) are `Nat` exactly where the source can only
  produce non-negative values, and are cast to `Int` where the source
  stores them into fields that participate in `Int` arithmetic.
* `int(x / y)` on non-negative ints is `Nat` division: for the values the
  program produces (`60*44100/bpm` with a small positive `bpm`,
  `len_beat/2`) the float quotient is far enough from the truncation
  boundary that `int(float-div)` coincides with floor division.
* Code that raises (`NotImplementedError` in `AudioCircularBuffer.write`,
  `IncompleteRecordedTrackError` in `post_production`) returns `Except`.
  The real-time callback never hits the buffer guard because the stream
  block size is at most one beat; engine-level theorems carry that bound
  (`indata.length ≤ len_beat`) as a hypothesis.
* The callback is modelled as a pure state transformer: one invocation of
  `callback` is one audio cycle.  The cross-thread pieces (the event
  queue push, `update_tracks`) are interleaved between cycles as engine
  steps; the GUI thread, locks and real time are out of the model.
-/

namespace Looper

/-- One audio frame: `CHANNELS = 2` signed samples (`constants.py`). -/
abbrev Frame := Int × Int

/-- An all-zero frame, as produced by `np.zeros(shape=(n, CHANNELS))`. -/
def zeroFrame : Frame := (0, 0)

/-- `SAMPLERATE = 44100` from `constants.py`. -/
def SAMPLERATE : Nat := 44100

/-- `Lem.__init__`: `self._len_beat = int(60*SAMPLERATE/bpm)`.  The float
division is exact enough in the validated bpm range that `int(...)` is
floor division. -/
def lenBeatOf (bpm : Nat) : Nat := 60 * SAMPLERATE / bpm

/-- Modelled from the spec: the spec's `round(60 * sampleRate / bpm)`
(nearest integer, half rounded up; claim C2 compares it with the code's
truncating division at a non-tie input, so the tie convention is
irrelevant). -/
def roundNearest (a b : Nat) : Nat := (2 * a + b) / (2 * b)

/-- `utils.on_beat`: does a beat boundary fall inside the next `frames`
frames? -/
def on_beat (current_frame len_beat frames : Nat) : Bool :=
  decide (len_beat ≤ current_frame % len_beat + frames)

/-- `utils.is_in_first_half_of_beat` (midpoint `int(len_beat/2)`
inclusive). -/
def is_in_first_half_of_beat (current_frame len_beat : Nat) : Bool :=
  decide (current_frame % len_beat ≤ len_beat / 2)

/-- `utils.UserRecordingEvents`. -/
inductive UserRecordingEvents
  | START
  | STOP
deriving DecidableEq

/-- `utils.AudioCircularBuffer`: fixed-capacity ring buffer.
`length` is the capacity (`self._length`), `data` the backing array
(`self._data`, always `length` frames), `index` the write cursor. -/
structure AudioCircularBuffer where
  length : Nat
  data : List Frame
  index : Nat
deriving DecidableEq

/-- The state change of `AudioCircularBuffer.write` on its non-raising
path: `self._data[self._index:] = data[:left]`,
`self._data[:overflown] = data[left:]` when the write wraps, otherwise
`self._data[self._index:total_len] = data`; then
`self._index = total_len % self._length`. -/
def AudioCircularBuffer.writeCore (b : AudioCircularBuffer) (d : List Frame) :
    AudioCircularBuffer :=
  let lenData := d.length
  let totalLen := b.index + lenData
  if totalLen > b.length then
    let left := b.length - b.index
    let overflown := lenData - left
    { b with
      data := d.drop left ++ ((b.data.take b.index).drop overflown) ++ d.take left
      index := totalLen % b.length }
  else
    { b with
      data := b.data.take b.index ++ d ++ b.data.drop totalLen
      index := totalLen % b.length }

/-- `AudioCircularBuffer.write` including its guard: writing more frames
than the capacity in one call raises `NotImplementedError`. -/
def AudioCircularBuffer.write (b : AudioCircularBuffer) (d : List Frame) :
    Except String AudioCircularBuffer :=
  if d.length > b.length then
    Except.error "Data too long! This circular buffer cannot write longer data than its set length."
  else
    Except.ok (b.writeCore d)

/-- `AudioCircularBuffer.start_to_index`: `self._data[:self._index]`. -/
def AudioCircularBuffer.start_to_index (b : AudioCircularBuffer) : List Frame :=
  b.data.take b.index

/-- `AudioCircularBuffer.position`: the current write cursor. -/
def AudioCircularBuffer.position (b : AudioCircularBuffer) : Nat := b.index

/-- `tracks.RecordedTrack`: a growing capture with optional timestamps
(all `None` and empty data on construction). -/
structure RecordedTrack where
  data : List Frame := []
  first_frame_time : Option Int := none
  start_rec_time : Option Int := none
  stop_rec_time : Option Int := none
deriving DecidableEq

/-- `RecordedTrack.append`: `np.concatenate([self.data, data])`. -/
def RecordedTrack.append (t : RecordedTrack) (d : List Frame) : RecordedTrack :=
  { t with data := t.data ++ d }

/-- `RecordedTrack.is_complete`: all three timestamps set and data
non-empty. -/
def RecordedTrack.is_complete (t : RecordedTrack) : Bool :=
  t.first_frame_time.isSome && t.start_rec_time.isSome &&
    t.stop_rec_time.isSome && decide (t.data.length ≠ 0)

/-- `tracks.PlayingTrack`: immutable audio data plus the global frame at
which its loop logically starts (`self._length` is `len(data)`, kept as
`data.length` here). -/
structure PlayingTrack where
  data : List Frame
  playing_from_frame : Int := 0
deriving DecidableEq

/-- `PlayingTrack.slice`: circular extraction.  `start` and `end` are
Python `%` of possibly-negative ints by the positive length, hence
non-negative (`Int.emod`, then `toNat`); the wrap branch is taken exactly
when `end < start`. -/
def PlayingTrack.slice (t : PlayingTrack) (from_frame : Int) (frames : Nat) :
    List Frame :=
  let ff := from_frame - t.playing_from_frame
  let len : Int := (t.data.length : Int)
  let start := (ff % len).toNat
  let stop := ((ff + (frames : Int)) % len).toNat
  if stop < start then
    t.data.drop start ++ t.data.take stop
  else
    (t.data.take stop).drop start

/-- Python index normalisation for a slice bound on a sequence of length
`n`: negative indices count from the end, then both bounds clamp into
`[0, n]`. -/
def pySliceIdx (n : Nat) (i : Int) : Nat :=
  if i < 0 then (i + n).toNat else min i.toNat n

/-- Python slicing `l[a:b]` with step 1 (as used by
`post_production`, where the stop bound can be negative). -/
def pySlice (l : List Frame) (a b : Int) : List Frame :=
  (l.take (pySliceIdx l.length b)).drop (pySliceIdx l.length a)

/-- `LoopStreamManager.post_production`: quantize a complete capture to
whole beats.  Raises (`Except.error`) on an incomplete capture; returns
`none` when the cut is empty, otherwise the `PlayingTrack`.  The `getD 0`
defaults are never used: the completeness guard ensures all three
timestamps are `some`. -/
def post_production (len_beat : Nat) (rt : RecordedTrack) :
    Except String (Option PlayingTrack) :=
  if rt.is_complete then
    let first := rt.first_frame_time.getD 0
    let start := rt.start_rec_time.getD 0
    let stop := rt.stop_rec_time.getD 0
    let data := rt.data
    let length : Int := (data.length : Int)
    let half_beat : Int := ((len_beat / 2 : Nat) : Int)
    let p : Int × Int :=
      if start - first < half_beat then (0, first)
      else ((len_beat : Int), first + (len_beat : Int))
    let start1 := p.fst
    let first1 := p.snd
    let stop1 : Int :=
      if (stop - first1) % (len_beat : Int) < half_beat then length - (len_beat : Int)
      else length
    let cut := pySlice data start1 stop1
    Except.ok (if cut.length ≠ 0 then
      some { data := cut, playing_from_frame := first1 }
    else none)
  else
    Except.error "RecordedTrack must be complete to be modified in post_production. See RecordedTrack.is_complete."

/-- Modelled from the spec (section 4.4), for the refinement claim C1:
the quantization algorithm exactly as the spec words it, on the unpacked
timestamps.  `half = len_beat/2` (integer division); rounded start keeps
or drops the pre-roll beat (incrementing `first`); rounded stop uses the
possibly incremented `first`; result is `data[start:stop]`, `none` when
empty, else a `PlayingTrack` playing from the (possibly incremented)
`first`. -/
def postProductionSpec (len_beat : Nat) (first start stop : Int)
    (data : List Frame) : Option PlayingTrack :=
  let half : Int := ((len_beat / 2 : Nat) : Int)
  let p : Int × Int :=
    if start - first < half then (0, first)
    else ((len_beat : Int), first + (len_beat : Int))
  let stop1 : Int :=
    if (stop - p.snd) % (len_beat : Int) < half then ((data.length : Int) - (len_beat : Int))
    else (data.length : Int)
  let cut := pySlice data p.fst stop1
  if cut.length ≠ 0 then some { data := cut, playing_from_frame := p.snd }
  else none

/-- The mutable state of `LoopStreamManager` that the audio callback
reads and writes.  The two queues (`utils.Queue`) are FIFO lists (push =
append at the back, pop = take the head).  `tracks` is the active
track-set snapshot (`self._tracks`); the lock / backup-copy machinery of
`update_tracks` is cross-thread plumbing outside this single-threaded
model, where a snapshot replacement is one atomic engine step. -/
structure LoopStreamManager where
  len_beat : Nat
  current_frame : Nat
  event_queue : List UserRecordingEvents
  recording : Bool
  stopping_recording : Bool
  last_beat : AudioCircularBuffer
  recorded_track : RecordedTrack
  recorded_tracks_queue : List RecordedTrack
  tracks : List PlayingTrack
deriving DecidableEq

/-- `LoopStreamManager._prepare_new_recording`. -/
def prepare_new_recording (s : LoopStreamManager) : LoopStreamManager :=
  { s with recorded_track := {}, recording := false, stopping_recording := false }

/-- `LoopStreamManager._finish_recording`: push the capture to the output
queue, then prepare a fresh one. -/
def finish_recording (s : LoopStreamManager) : LoopStreamManager :=
  prepare_new_recording
    { s with recorded_tracks_queue := s.recorded_tracks_queue ++ [s.recorded_track] }

/-- `LoopStreamManager._initialize_recording` (leading underscore
dropped): discard an unfinished (draining) capture, then seed the new
capture with the pre-roll buffer and note the timestamps. -/
def init_recording (s : LoopStreamManager) : LoopStreamManager :=
  let s := if s.stopping_recording then prepare_new_recording s else s
  let rt := { s.recorded_track with
    first_frame_time := some ((s.current_frame : Int) - (s.last_beat.position : Int))
    start_rec_time := some ((s.current_frame : Int)) }
  { s with recorded_track := rt.append s.last_beat.start_to_index, recording := true }

/-- `LoopStreamManager._stop_recording`: note the stop time; in the first
half of a beat pad with silence to the beat boundary and finish at once,
otherwise raise `_stopping_recording` and let the callback finish on the
next beat. -/
def stop_recording (s : LoopStreamManager) : LoopStreamManager :=
  let s := { s with recorded_track :=
    { s.recorded_track with stop_rec_time := some ((s.current_frame : Int)) } }
  if is_in_first_half_of_beat s.current_frame s.len_beat then
    finish_recording { s with recorded_track := (s.recorded_track.append
      (List.replicate (s.len_beat - s.current_frame % s.len_beat) zeroFrame)) }
  else
    { s with stopping_recording := true }

/-- The event-handling block at the top of `callback`: pop at most one
event and dispatch it. -/
def handle_event (s : LoopStreamManager) : LoopStreamManager :=
  match s.event_queue with
  | [] => s
  | e :: rest =>
    let s1 := { s with event_queue := rest }
    match e with
    | UserRecordingEvents.START => init_recording s1
    | UserRecordingEvents.STOP => stop_recording s1

/-- `if self._recording: self._recorded_track.append(data=indata)`. -/
def record_phase (s : LoopStreamManager) (indata : List Frame) : LoopStreamManager :=
  if s.recording then { s with recorded_track := s.recorded_track.append indata }
  else s

/-- The draining check of `callback`: when stop is pending and the cycle
crosses a beat boundary, cut the frames over the last whole beat and
finish. -/
def drain_phase (s : LoopStreamManager) (frames : Nat) : LoopStreamManager :=
  if s.stopping_recording && on_beat s.current_frame s.len_beat frames then
    finish_recording { s with recorded_track := { s.recorded_track with
      data := s.recorded_track.data.take
        (s.recorded_track.data.length - s.recorded_track.data.length % s.len_beat) } }
  else s

/-- Integer stand-in for the per-sample arithmetic mean: `np.mean`
produces a float64 mean that numpy truncates toward zero when it is
stored into the int16 output buffer; modelled with exact integer
T-division.  No claim refers to mixed sample values. -/
def int_mean (xs : List Int) : Int := xs.sum / (xs.length : Int)

/-- Element-wise mean of equally long rows of frames (`np.mean(a=...,
axis=0)`).  All rows have length `frames` in every real invocation;
shorter rows would make numpy raise and are zero-padded here. -/
def mix_columns (rows : List (List Frame)) (frames : Nat) : List Frame :=
  (List.range frames).map fun i =>
    ( int_mean (rows.map fun r => (r.getD i zeroFrame).fst)
    , int_mean (rows.map fun r => (r.getD i zeroFrame).snd) )

/-- `slice_and_mix` from `LoopStreamManager.main`: the live input plus a
time-aligned circular slice of every playing track, averaged
sample-wise. -/
def slice_and_mix (s : LoopStreamManager) (indata : List Frame) (frames : Nat) :
    List Frame :=
  mix_columns
    (indata :: s.tracks.map fun t => t.slice ((s.current_frame : Int)) frames) frames

/-- One invocation of the audio `callback`: on output underflow emit
silence and change nothing; otherwise handle at most one event, append
input while recording, finish a draining capture on a beat crossing,
write the input into the pre-roll ring, produce the mixed output (still
at the old `current_frame`), and advance the frame counter. -/
def callback (s : LoopStreamManager) (indata : List Frame)
    (output_underflow : Bool) : LoopStreamManager × List Frame :=
  if output_underflow then
    (s, List.replicate indata.length zeroFrame)
  else
    let s1 := handle_event s
    let s2 := record_phase s1 indata
    let s3 := drain_phase s2 indata.length
    let s4 := { s3 with last_beat := s3.last_beat.writeCore indata }
    ({ s4 with current_frame := s4.current_frame + indata.length },
      slice_and_mix s4 indata indata.length)

/-- `LoopStreamManager.__init__` for a session with beat length
`len_beat`.  `bufInit` is the unspecified initial content of the
`np.empty` ring buffer (always `len_beat` frames). -/
def initState (len_beat : Nat) (bufInit : List Frame) : LoopStreamManager :=
  { len_beat := len_beat
    current_frame := 0
    event_queue := []
    recording := false
    stopping_recording := false
    last_beat := { length := len_beat, data := bufInit, index := 0 }
    recorded_track := {}
    recorded_tracks_queue := []
    tracks := [] }

/-- One step of an engine execution: a control-thread event push
(`start_recording` / `stop_recording`), a control-thread track-set
replacement (`update_tracks`), or one audio cycle (a `callback`
invocation with its input block and underflow flag). -/
inductive EngineStep
  | push (e : UserRecordingEvents)
  | updateTracks (ts : List PlayingTrack)
  | cycle (indata : List Frame) (underflow : Bool)
deriving DecidableEq

/-- Apply one engine step to the state. -/
def applyStep (s : LoopStreamManager) : EngineStep → LoopStreamManager
  | EngineStep.push e => { s with event_queue := s.event_queue ++ [e] }
  | EngineStep.updateTracks ts => { s with tracks := ts }
  | EngineStep.cycle d uf => (callback s d uf).fst

/-- Run a schedule of engine steps. -/
def run (s : LoopStreamManager) (steps : List EngineStep) : LoopStreamManager :=
  steps.foldl applyStep s

/-- Every cycle of the schedule processes at most `lb` frames — the
configuration guarantee (`BLOCKSIZE ≤ len_beat`) under which the ring
buffer's write guard never fires. -/
def BoundedRun (lb : Nat) : List EngineStep → Bool
  | [] => true
  | EngineStep.cycle d _ :: rest => decide (d.length ≤ lb) && BoundedRun lb rest
  | _ :: rest => BoundedRun lb rest

/-- Disciplined use of the command queue at the current state: a Start
is only consumed while not plainly recording (idle or draining), a Stop
only while a recording is active. -/
def eventAdmissibleB (s : LoopStreamManager) : Bool :=
  match s.event_queue with
  | UserRecordingEvents.START :: _ => !s.recording || s.stopping_recording
  | UserRecordingEvents.STOP :: _ => s.recording
  | [] => true

/-- A schedule is disciplined for state `s`: every cycle is bounded by
the beat length and any event it consumes is admissible at the state
where it is consumed. -/
def DisciplinedRun (s : LoopStreamManager) : List EngineStep → Bool
  | [] => true
  | EngineStep.cycle d uf :: rest =>
    decide (d.length ≤ s.len_beat) && (uf || eventAdmissibleB s) &&
      DisciplinedRun (applyStep s (EngineStep.cycle d uf)) rest
  | st :: rest => DisciplinedRun (applyStep s st) rest

/-- The ring-buffer coupling invariant: capacity and backing length equal
the (positive) beat length, and the write cursor is the global frame
counter modulo the beat length. -/
def BufInv (s : LoopStreamManager) : Prop :=
  0 < s.len_beat ∧ s.last_beat.length = s.len_beat ∧
    s.last_beat.data.length = s.len_beat ∧
    s.last_beat.index = s.current_frame % s.len_beat

/-- Capture invariant, with `ref` the frame count the capture has grown
to (equal to `current_frame` between cycles, `current_frame + frames`
after the in-cycle append): an active capture starts at a beat-aligned
`first_frame_time ≤ current_frame` and holds exactly the frames from
there to `ref`; an idle capture is fresh; a draining capture has its
stop time set. -/
def CapInvAt (s : LoopStreamManager) (ref : Nat) : Prop :=
  (s.recording = true →
    ∃ f : Nat, s.recorded_track.first_frame_time = some ((f : Int)) ∧
      f % s.len_beat = 0 ∧ f ≤ s.current_frame ∧
      s.recorded_track.data.length + f = ref ∧
      s.recorded_track.start_rec_time.isSome = true) ∧
  (s.recording = false → s.recorded_track = {} ∧ s.stopping_recording = false) ∧
  (s.stopping_recording = true → s.recorded_track.stop_rec_time.isSome = true)

/-- Every capture handed to the output queue is complete and
whole-beat-sized. -/
def QueueInv (s : LoopStreamManager) : Prop :=
  ∀ t ∈ s.recorded_tracks_queue,
    t.is_complete = true ∧ t.data.length % s.len_beat = 0

/-- The full engine invariant between cycles. -/
def RecInv (s : LoopStreamManager) : Prop :=
  BufInv s ∧ CapInvAt s s.current_frame ∧ QueueInv s

/-- Writing a sequence of blocks into the ring buffer, one
`AudioCircularBuffer.write` call per block (non-raising path; every
block in the claims is at most the capacity, so the guard never
fires). -/
def writeMany (b : AudioCircularBuffer) (ws : List (List Frame)) :
    AudioCircularBuffer :=
  ws.foldl AudioCircularBuffer.writeCore b

/-- Abstraction relation for the ring buffer alone: after the stream `S`
of frames has been written into an initially fresh buffer (in calls of
at most the capacity each), the backing array still has full capacity,
the cursor is the stream length modulo the capacity, and the prefix
`data[:index]` holds the most recent `index` frames of the stream, in
order. -/
def BufAbs (b : AudioCircularBuffer) (S : List Frame) : Prop :=
  b.data.length = b.length ∧ b.index = S.length % b.length ∧
    b.data.take b.index = S.drop (S.length - b.index)

/-- Concrete complete capture used to exercise `post_production`:
8 frames over a 4-frame beat, Start one frame late, Stop on the beat. -/
def c1rt : RecordedTrack :=
  { data := [(1, 1), (2, 2), (3, 3), (4, 4), (5, 5), (6, 6), (7, 7), (8, 8)]
    first_frame_time := some 0
    start_rec_time := some 1
    stop_rec_time := some 8 }

/-- A 2-frame `PlayingTrack` for probing `slice` at `frames = length`. -/
def c3t : PlayingTrack := { data := [(1, 1), (2, 2)] }

/-- Concrete engine state for the Stop-in-first-half scenario of the
spec: `len_beat = 22050`, a recording active, Stop pending at
`current_frame = 27050`. -/
def c4s : LoopStreamManager :=
  { len_beat := 22050
    current_frame := 27050
    event_queue := [UserRecordingEvents.STOP]
    recording := true
    stopping_recording := false
    last_beat := { length := 22050, data := List.replicate 22050 zeroFrame, index := 5000 }
    recorded_track :=
      { data := List.replicate 22050 zeroFrame
        first_frame_time := some 5000
        start_rec_time := some 5000
        stop_rec_time := none }
    recorded_tracks_queue := []
    tracks := [] }

/-- Schedule with a second Start consumed while plainly recording (no
Stop pending): beat length 4, 2-frame cycles with distinguishable input
values per cycle. -/
def c6steps : List EngineStep :=
  [ EngineStep.push UserRecordingEvents.START
  , EngineStep.cycle [(1, 1), (1, 1)] false
  , EngineStep.cycle [(2, 2), (2, 2)] false
  , EngineStep.push UserRecordingEvents.START
  , EngineStep.cycle [(3, 3), (3, 3)] false
  , EngineStep.push UserRecordingEvents.STOP
  , EngineStep.cycle [(4, 4), (4, 4)] false ]

/-- Concrete draining state for the amended C6 claim: a Stop is pending
(`stopping_recording`), a Start is at the head of the queue. -/
def c6s : LoopStreamManager :=
  { len_beat := 4
    current_frame := 6
    event_queue := [UserRecordingEvents.START]
    recording := true
    stopping_recording := true
    last_beat := { length := 4, data := [(1, 1), (1, 1), (2, 2), (2, 2)], index := 2 }
    recorded_track := {}
    recorded_tracks_queue := []
    tracks := [] }

/-- Two different superseded captures for the amended C6 claim. -/
def c6t1 : RecordedTrack :=
  { data := [(7, 7), (7, 7)], first_frame_time := some 0
    start_rec_time := some 0, stop_rec_time := some 5 }

/-- See `c6t1`. -/
def c6t2 : RecordedTrack :=
  { data := List.replicate 6 (8, 8), first_frame_time := some (-2)
    start_rec_time := some 1, stop_rec_time := none }

/-- Schedule where a Stop is consumed with no recording active
(`stop_recording` without a preceding `start_recording`): beat length 4,
the Stop lands at `current_frame = 2`. -/
def c5steps : List EngineStep :=
  [ EngineStep.cycle [(1, 1), (1, 1)] false
  , EngineStep.push UserRecordingEvents.STOP
  , EngineStep.cycle [(2, 2), (2, 2)] false ]

/-- Schedule where a Stop is consumed with no recording active, at
`current_frame = 0`: the pushed capture has no Start timestamps. -/
def c8steps : List EngineStep :=
  [ EngineStep.push UserRecordingEvents.STOP
  , EngineStep.cycle [(1, 1), (1, 1)] false ]

/-- A disciplined schedule (beat length 4) producing one finalized
track: Start at frame 0, Stop at frame 2 (first half, immediate
finalize with 2 padding frames). -/
def discSteps : List EngineStep :=
  [ EngineStep.push UserRecordingEvents.START
  , EngineStep.cycle [(1, 1), (1, 1)] false
  , EngineStep.push UserRecordingEvents.STOP
  , EngineStep.cycle [(2, 2), (2, 2)] false ]

/-- Bounded schedule (beat length 4) ending with a pending Start at
`current_frame = 1`. -/
def c10steps : List EngineStep :=
  [ EngineStep.cycle [(1, 1)] false
  , EngineStep.push UserRecordingEvents.START ]

/-! Arithmetic helpers about beat alignment. -/

theorem sub_mod_self_mod (c lb : Nat) : (c - c % lb) % lb = 0 := by
  have h := Nat.div_add_mod c lb
  have : c - c % lb = lb * (c / lb) := by omega
  rw [this]
  exact Nat.mul_mod_right _ _

theorem aligned_add_mod_le (lb c f : Nat) (hlb : 0 < lb) (hf : f % lb = 0)
    (hfc : f ≤ c) : f + c % lb ≤ c := by
  obtain ⟨k, hk⟩ := Nat.dvd_of_mod_eq_zero hf
  have hdm := Nat.div_add_mod c lb
  have hlk : lb * k ≤ c := hk ▸ hfc
  have hkle : k ≤ c / lb :=
    (Nat.le_div_iff_mul_le hlb).mpr (by rw [Nat.mul_comm]; exact hlk)
  have : lb * k ≤ lb * (c / lb) := Nat.mul_le_mul_left _ hkle
  omega

theorem pad_to_beat_mod (lb c f : Nat) (hlb : 0 < lb) (hf : f % lb = 0)
    (hfc : f ≤ c) : ((c - f) + (lb - c % lb)) % lb = 0 := by
  obtain ⟨k, hk⟩ := Nat.dvd_of_mod_eq_zero hf
  have hdm := Nat.div_add_mod c lb
  have hm : c % lb < lb := Nat.mod_lt _ hlb
  have hlk : lb * k ≤ c := hk ▸ hfc
  have hkle : k ≤ c / lb :=
    (Nat.le_div_iff_mul_le hlb).mpr (by rw [Nat.mul_comm]; exact hlk)
  have hmul : lb * k ≤ lb * (c / lb) := Nat.mul_le_mul_left _ hkle
  have hval : (c - f) + (lb - c % lb) = lb * (c / lb - k + 1) := by
    have : lb * (c / lb - k + 1) = lb * (c / lb) - lb * k + lb := by
      rw [Nat.mul_add, Nat.mul_sub]
      omega
    omega
  rw [hval]
  exact Nat.mul_mod_right _ _

theorem trim_mod (lb n : Nat) : (n - n % lb) % lb = 0 :=
  sub_mod_self_mod n lb

/-! Ring-buffer lemmas. -/

theorem writeCore_length_eq (b : AudioCircularBuffer) (d : List Frame) :
    (b.writeCore d).length = b.length := by
  simp only [AudioCircularBuffer.writeCore]
  split <;> rfl

theorem writeCore_index_eq (b : AudioCircularBuffer) (d : List Frame) :
    (b.writeCore d).index = (b.index + d.length) % b.length := by
  simp only [AudioCircularBuffer.writeCore]
  split <;> rfl

theorem writeCore_data_length (b : AudioCircularBuffer) (d : List Frame)
    (hlen : b.data.length = b.length) (hidx : b.index ≤ b.length)
    (hd : d.length ≤ b.length) :
    (b.writeCore d).data.length = b.length := by
  simp only [AudioCircularBuffer.writeCore]
  split <;> simp [List.length_append, List.length_take, List.length_drop, hlen] <;> omega

theorem write_ok_of_le (b : AudioCircularBuffer) (d : List Frame)
    (hd : d.length ≤ b.length) :
    b.write d = Except.ok (b.writeCore d) := by
  simp [AudioCircularBuffer.write, Nat.not_lt.mpr hd]

theorem writeCore_BufAbs (b : AudioCircularBuffer) (S d : List Frame)
    (hC : 0 < b.length) (hd : d.length ≤ b.length) (h : BufAbs b S) :
    BufAbs (b.writeCore d) (S ++ d) := by
  obtain ⟨hlen, hidx, hpre⟩ := h
  have hiL : b.index < b.length := hidx ▸ Nat.mod_lt _ hC
  have hiS : b.index ≤ S.length := hidx ▸ Nat.mod_le _ _
  by_cases hov : b.index + d.length > b.length
  · -- wrapping write
    have hix : (b.writeCore d).index = b.index + d.length - b.length := by
      rw [writeCore_index_eq]
      rw [Nat.mod_eq_sub_mod (by omega)]
      exact Nat.mod_eq_of_lt (by omega)
    refine ⟨?_, ?_, ?_⟩
    · rw [writeCore_data_length b d hlen (Nat.le_of_lt hiL) hd, writeCore_length_eq]
    · rw [writeCore_length_eq, hix, List.length_append]
      have hmod : (S.length + d.length) % b.length =
          (b.index + d.length) % b.length := by
        rw [hidx, Nat.mod_add_mod]
      rw [hmod, Nat.mod_eq_sub_mod (by omega : b.length ≤ b.index + d.length)]
      exact (Nat.mod_eq_of_lt (by omega)).symm
    · have hbranch : (b.writeCore d).data =
          d.drop (b.length - b.index) ++
            ((b.data.take b.index).drop (d.length - (b.length - b.index))) ++
            d.take (b.length - b.index) := by
        simp only [AudioCircularBuffer.writeCore]
        rw [if_pos hov]
      rw [hbranch, hix]
      have hdl : (d.drop (b.length - b.index)).length =
          b.index + d.length - b.length := by
        rw [List.length_drop]; omega
      rw [List.append_assoc, List.take_append_of_le_length (by omega),
        List.take_of_length_le (by omega)]
      have hsplit : S.length + d.length - (b.index + d.length - b.length) =
          S.length + (b.length - b.index) := by omega
      rw [List.length_append, hsplit, List.drop_append]
  · -- non-wrapping write
    have hle : b.index + d.length ≤ b.length := Nat.not_lt.mp hov
    have hix : (b.writeCore d).index = (b.index + d.length) % b.length := by
      rw [writeCore_index_eq]
    refine ⟨?_, ?_, ?_⟩
    · rw [writeCore_data_length b d hlen (Nat.le_of_lt hiL) hd, writeCore_length_eq]
    · rw [writeCore_length_eq, hix, List.length_append, hidx, Nat.mod_add_mod]
    · have hbranch : (b.writeCore d).data =
          b.data.take b.index ++ d ++ b.data.drop (b.index + d.length) := by
        simp only [AudioCircularBuffer.writeCore]
        rw [if_neg hov]
      by_cases heq : b.index + d.length = b.length
      · have hz : (b.writeCore d).index = 0 := by rw [hix, heq, Nat.mod_self]
        rw [hz]
        simp
      · have hlt : b.index + d.length < b.length := by omega
        have hz : (b.writeCore d).index = b.index + d.length := by
          rw [hix]; exact Nat.mod_eq_of_lt hlt
        rw [hbranch, hz, List.append_assoc,
          List.take_append_eq_append_take, List.take_of_length_le (by
            rw [List.length_take]; omega),
          List.length_take]
        have htk : min b.index b.data.length = b.index := by omega
        rw [htk]
        have htk2 : (d ++ b.data.drop (b.index + d.length)).take
            (b.index + d.length - b.index) = d := by
          have : b.index + d.length - b.index = d.length := by omega
          rw [this]
          exact List.take_left _ _
        rw [htk2, hpre]
        have hsplit : S.length + d.length - (b.index + d.length) =
            S.length - b.index := by omega
        rw [List.length_append, hsplit,
          List.drop_append_of_le_length (by omega)]

theorem writeMany_BufAbs (ws : List (List Frame)) :
    ∀ b S, BufAbs b S → 0 < b.length → (∀ w ∈ ws, w.length ≤ b.length) →
      BufAbs (writeMany b ws) (S ++ ws.flatten) ∧
        (writeMany b ws).length = b.length := by
  induction ws with
  | nil => intro b S h hC hws; simpa [writeMany] using h
  | cons w ws ih =>
    intro b S h hC hws
    have hw : w.length ≤ b.length := hws w (by simp)
    have h1 := writeCore_BufAbs b S w hC hw h
    have hcap : (b.writeCore w).length = b.length := writeCore_length_eq b w
    have hws2 : ∀ u ∈ ws, u.length ≤ (b.writeCore w).length := by
      intro u hu; rw [hcap]; exact hws u (by simp [hu])
    have h2 := ih (b.writeCore w) (S ++ w) h1 (hcap ▸ hC) hws2
    constructor
    · have h3 := h2.1
      rw [List.flatten_cons, ← List.append_assoc]
      exact h3
    · rw [show writeMany b (w :: ws) = writeMany (b.writeCore w) ws from rfl,
        h2.2, hcap]

/-! C9: the circular pre-roll buffer after wrapping. -/

/-- C9: for capacity `C > 0`, after writing `C + k` frames (`0 ≤ k < C`)
in one or more calls of at most `C` frames each, `position()` is `k`,
`start_to_index()` returns exactly `k` frames, and they are the most
recent `k` frames written, in writing order. -/
theorem C9_circular_buffer (C k : Nat) (bufInit : List Frame)
    (ws : List (List Frame))
    (hC : 0 < C) (hinit : bufInit.length = C)
    (hws : ∀ w ∈ ws, w.length ≤ C)
    (htot : ws.flatten.length = C + k) (hk : k < C) :
    (writeMany ⟨C, bufInit, 0⟩ ws).position = k ∧
      (writeMany ⟨C, bufInit, 0⟩ ws).start_to_index = ws.flatten.drop C ∧
      (ws.flatten.drop C).length = k := by
  have h0 : BufAbs ⟨C, bufInit, 0⟩ [] := by
    refine ⟨hinit, by simp, by simp⟩
  obtain ⟨⟨hlen, hidx, hpre⟩, hcap⟩ :=
    writeMany_BufAbs ws ⟨C, bufInit, 0⟩ [] h0 hC hws
  simp only [List.nil_append] at hidx hpre
  have hkk : (writeMany ⟨C, bufInit, 0⟩ ws).index = k := by
    rw [hidx, hcap, htot, Nat.add_mod_left]
    exact Nat.mod_eq_of_lt hk
  refine ⟨hkk, ?_, by rw [List.length_drop, htot]; omega⟩
  rw [AudioCircularBuffer.start_to_index, hpre, hkk, htot]
  congr 1
  omega

/-- Witness for C9: capacity 3, writes `[1,2]` then `[3,4]`
(`4 = 3 + 1` frames total), so the cursor is 1 and the valid prefix is
the single most recent frame `4`. -/
theorem C9_witness :
    (0 < 3 ∧ (List.replicate 3 zeroFrame).length = 3 ∧
      (∀ w ∈ [[((1 : Int), (1 : Int)), (2, 2)], [(3, 3), (4, 4)]], w.length ≤ 3) ∧
      ([[((1 : Int), (1 : Int)), (2, 2)], [(3, 3), (4, 4)]] :
        List (List Frame)).flatten.length = 3 + 1 ∧ 1 < 3) ∧
    ((writeMany ⟨3, List.replicate 3 zeroFrame, 0⟩
        [[((1 : Int), (1 : Int)), (2, 2)], [(3, 3), (4, 4)]]).position = 1 ∧
      (writeMany ⟨3, List.replicate 3 zeroFrame, 0⟩
          [[((1 : Int), (1 : Int)), (2, 2)], [(3, 3), (4, 4)]]).start_to_index =
        ([[((1 : Int), (1 : Int)), (2, 2)], [(3, 3), (4, 4)]] :
          List (List Frame)).flatten.drop 3 ∧
      (([[((1 : Int), (1 : Int)), (2, 2)], [(3, 3), (4, 4)]] :
        List (List Frame)).flatten.drop 3).length = 1) := by
  refine ⟨⟨by decide, by decide, by decide, by decide, by decide⟩, ?_⟩
  exact C9_circular_buffer 3 1 (List.replicate 3 zeroFrame)
    [[((1 : Int), (1 : Int)), (2, 2)], [(3, 3), (4, 4)]]
    (by decide) (by decide) (by decide) (by decide) (by decide)

/-! C1: `post_production` computes the quantization exactly as the spec
describes it. -/

/-- C1: for every complete `RecordedTrack` (timestamps `first`, `start`,
`stop`, non-empty data) and beat length `len_beat > 0`,
`post_production` succeeds and returns exactly the spec's quantization:
rounded start 0 or `len_beat` (incrementing `first`), rounded stop
`N - len_beat` or `N` by `(stop - first') mod len_beat` against
`half = len_beat/2`, result `data[start:stop]` as a `PlayingTrack`
playing from the possibly incremented `first`, or `none` when the cut is
empty. -/
theorem C1_post_production_matches_spec (len_beat : Nat) (rt : RecordedTrack)
    (first start stop : Int)
    (hlb : 0 < len_beat)
    (hfirst : rt.first_frame_time = some first)
    (hstart : rt.start_rec_time = some start)
    (hstop : rt.stop_rec_time = some stop)
    (hdata : rt.data.length ≠ 0) :
    post_production len_beat rt =
      Except.ok (postProductionSpec len_beat first start stop rt.data) := by
  have hc : rt.is_complete = true := by
    simp [RecordedTrack.is_complete, hfirst, hstart, hstop, hdata]
  simp [post_production, postProductionSpec, hc, hfirst, hstart, hstop]

/-- Witness for C1 at `len_beat = 4` and a concrete 8-frame capture
(Start one frame late, Stop on the beat): the first pre-roll beat is
kept and the last beat dropped, leaving frames 1–4. -/
theorem C1_witness :
    (0 < 4 ∧ c1rt.first_frame_time = some 0 ∧ c1rt.start_rec_time = some 1 ∧
      c1rt.stop_rec_time = some 8 ∧ c1rt.data.length ≠ 0) ∧
    post_production 4 c1rt = Except.ok (postProductionSpec 4 0 1 8 c1rt.data) ∧
    post_production 4 c1rt =
      Except.ok (some { data := [(1, 1), (2, 2), (3, 3), (4, 4)], playing_from_frame := 0 }) := by
  refine ⟨⟨by decide, rfl, rfl, rfl, by decide⟩, ?_, by rfl⟩
  exact C1_post_production_matches_spec 4 c1rt 0 1 8 (by decide) rfl rfl rfl (by decide)

/-! C2: the session's beat length is the truncated, not the rounded,
quotient. -/

/-- Counterexample to C2 as stated: at `bpm = 31` the code's
`int(60*44100/bpm)` truncates `85354.84…` to `85354`, while the nearest
integer (the spec's `round`) is `85355`. -/
theorem C2_counterexample :
    lenBeatOf 31 = 85354 ∧ roundNearest (60 * SAMPLERATE) 31 = 85355 ∧
      lenBeatOf 31 ≠ roundNearest (60 * SAMPLERATE) 31 := by
  refine ⟨by decide, by decide, by decide⟩

/-- C2 amended: for every positive `bpm` the beat length is the floor of
`60 * 44100 / bpm` — the greatest integer `n` with `n * bpm ≤ 60 * 44100`. -/
theorem C2_len_beat_floor (bpm : Nat) (h : 0 < bpm) :
    lenBeatOf bpm * bpm ≤ 60 * SAMPLERATE ∧
      60 * SAMPLERATE < (lenBeatOf bpm + 1) * bpm := by
  constructor
  · exact Nat.div_mul_le_self _ _
  · have hdm := Nat.div_add_mod (60 * SAMPLERATE) bpm
    have hm : 60 * SAMPLERATE % bpm < bpm := Nat.mod_lt _ h
    have : (lenBeatOf bpm + 1) * bpm = bpm * (60 * SAMPLERATE / bpm) + bpm := by
      rw [lenBeatOf, Nat.add_mul, Nat.one_mul, Nat.mul_comm]
    omega

/-- Witness for the amended C2 at `bpm = 120`: `len_beat = 22050`. -/
theorem C2_witness :
    0 < 120 ∧ lenBeatOf 120 = 22050 ∧
      (lenBeatOf 120 * 120 ≤ 60 * SAMPLERATE ∧
        60 * SAMPLERATE < (lenBeatOf 120 + 1) * 120) := by
  exact ⟨by decide, by decide, C2_len_beat_floor 120 (by decide)⟩

/-! C3: `PlayingTrack.slice` at `frames = length`. -/

/-- C3 fails on the code: on a track of length 2, `slice(0, 2)` returns
the empty list (0 frames), not 2 frames, because the wrap test `end <
start` is false when `end = start` and the non-wrap branch cuts
`data[start:start]`.  This contradicts the method's own docstring
("Returns a slice of self.data long frames"). -/
theorem C3_slice_full_length_returns_empty :
    c3t.slice 0 2 = [] ∧ (c3t.slice 0 2).length = 0 ∧ (c3t.slice 0 2).length ≠ 2 := by
  refine ⟨by decide, by decide, by decide⟩

/-! Field-preservation lemmas: the event/record/drain phases never touch
the frame counter, the beat length, the ring buffer or the track
snapshot, and the two final callback assignments never touch the capture
or the queues. -/

theorem handle_event_fields (s : LoopStreamManager) :
    (handle_event s).len_beat = s.len_beat ∧
    (handle_event s).current_frame = s.current_frame ∧
    (handle_event s).last_beat = s.last_beat ∧
    (handle_event s).tracks = s.tracks := by
  rcases hq : s.event_queue with _ | ⟨e, rest⟩
  · simp [handle_event, hq]
  · cases e
    · simp only [handle_event, hq, init_recording, prepare_new_recording]
      split <;> exact ⟨rfl, rfl, rfl, rfl⟩
    · simp only [handle_event, hq, stop_recording, finish_recording,
        prepare_new_recording]
      split <;> exact ⟨rfl, rfl, rfl, rfl⟩

theorem record_phase_fields (s : LoopStreamManager) (d : List Frame) :
    (record_phase s d).len_beat = s.len_beat ∧
    (record_phase s d).current_frame = s.current_frame ∧
    (record_phase s d).last_beat = s.last_beat ∧
    (record_phase s d).tracks = s.tracks ∧
    (record_phase s d).recorded_tracks_queue = s.recorded_tracks_queue := by
  simp only [record_phase]
  split <;> exact ⟨rfl, rfl, rfl, rfl, rfl⟩

theorem drain_phase_fields (s : LoopStreamManager) (m : Nat) :
    (drain_phase s m).len_beat = s.len_beat ∧
    (drain_phase s m).current_frame = s.current_frame ∧
    (drain_phase s m).last_beat = s.last_beat ∧
    (drain_phase s m).tracks = s.tracks := by
  simp only [drain_phase, finish_recording, prepare_new_recording]
  split <;> exact ⟨rfl, rfl, rfl, rfl⟩

theorem callback_len_beat (s : LoopStreamManager) (d : List Frame) (uf : Bool) :
    ((callback s d uf).fst).len_beat = s.len_beat := by
  cases uf
  · show (drain_phase (record_phase (handle_event s) d) d.length).len_beat = _
    rw [(drain_phase_fields _ _).1, (record_phase_fields _ _).1,
      (handle_event_fields _).1]
  · rfl

theorem applyStep_len_beat (s : LoopStreamManager) (st : EngineStep) :
    (applyStep s st).len_beat = s.len_beat := by
  cases st with
  | push e => rfl
  | updateTracks ts => rfl
  | cycle d uf => exact callback_len_beat s d uf

/-! Preservation of the capture and queue invariants through the three
phases of a non-underflow cycle. -/

theorem capInv_handle_event (s : LoopStreamManager)
    (hbuf : BufInv s) (hcap : CapInvAt s s.current_frame) (hQ : QueueInv s)
    (hadm : eventAdmissibleB s = true) :
    CapInvAt (handle_event s) s.current_frame ∧ QueueInv (handle_event s) := by
  obtain ⟨hlb, hblen, hbdata, hbidx⟩ := hbuf
  obtain ⟨lb, c, q, rec, stp, buf, rt, outq, trs⟩ := s
  simp only at hlb hblen hbdata hbidx hadm ⊢
  obtain ⟨hA, hB, hD⟩ := hcap
  simp only at hA hB hD
  have hseedlen : buf.start_to_index.length = c % lb := by
    rw [AudioCircularBuffer.start_to_index, List.length_take, hbidx, hbdata]
    have := Nat.mod_lt c hlb
    omega
  have hfirstval : some ((c : Int) - (buf.position : Int)) =
      some (((c - c % lb : Nat) : Int)) := by
    rw [Nat.cast_sub (Nat.mod_le c lb), AudioCircularBuffer.position, hbidx]
  rcases hq : q with _ | ⟨e, rest⟩
  · subst hq
    exact ⟨⟨hA, hB, hD⟩, hQ⟩
  · subst hq
    cases e with
    | START =>
      rw [show handle_event
          (⟨lb, c, UserRecordingEvents.START :: rest, rec, stp, buf, rt, outq,
            trs⟩ : LoopStreamManager) =
        init_recording ⟨lb, c, rest, rec, stp, buf, rt, outq, trs⟩ from rfl]
      cases stp with
      | false =>
        have hrec : rec = false := by
          simp only [eventAdmissibleB] at hadm
          simpa using hadm
        subst hrec
        obtain ⟨hrt, -⟩ := hB rfl
        subst hrt
        refine ⟨⟨?_, ?_, ?_⟩, ?_⟩
        · intro _
          refine ⟨c - c % lb, hfirstval, sub_mod_self_mod c lb, Nat.sub_le _ _,
            ?_, rfl⟩
          show ([] ++ buf.start_to_index).length + (c - c % lb) = c
          rw [List.nil_append, hseedlen]
          have := Nat.mod_le c lb
          omega
        · intro hcontra
          exact absurd hcontra (by simp [init_recording])
        · intro hcontra
          exact absurd hcontra (by simp [init_recording])
        · exact fun t ht => hQ t ht
      | true =>
        refine ⟨⟨?_, ?_, ?_⟩, ?_⟩
        · intro _
          refine ⟨c - c % lb, hfirstval, sub_mod_self_mod c lb, Nat.sub_le _ _,
            ?_, rfl⟩
          show ([] ++ buf.start_to_index).length + (c - c % lb) = c
          rw [List.nil_append, hseedlen]
          have := Nat.mod_le c lb
          omega
        · intro hcontra
          exact absurd hcontra (by simp [init_recording, prepare_new_recording])
        · intro hcontra
          exact absurd hcontra (by simp [init_recording, prepare_new_recording])
        · exact fun t ht => hQ t ht
    | STOP =>
      rw [show handle_event
          (⟨lb, c, UserRecordingEvents.STOP :: rest, rec, stp, buf, rt, outq,
            trs⟩ : LoopStreamManager) =
        stop_recording ⟨lb, c, rest, rec, stp, buf, rt, outq, trs⟩ from rfl]
      have hrec : rec = true := by
        simp only [eventAdmissibleB] at hadm
        simpa using hadm
      subst hrec
      obtain ⟨f, hf1, hf2, hf3, hf4, hf5⟩ := hA rfl
      simp only [stop_recording]
      rcases hcond : is_in_first_half_of_beat c lb with _ | _
      · -- second half: enter draining
        rw [if_neg Bool.false_ne_true]
        refine ⟨⟨?_, ?_, ?_⟩, ?_⟩
        · intro _
          exact ⟨f, hf1, hf2, hf3, hf4, hf5⟩
        · intro hcontra
          exact Bool.noConfusion hcontra
        · intro _
          rfl
        · exact fun t ht => hQ t ht
      · -- first half: pad with silence and finalize now
        have hhalf : c % lb ≤ lb / 2 := by
          simpa [is_in_first_half_of_beat] using hcond
        rw [if_pos rfl]
        simp only [finish_recording, prepare_new_recording]
        refine ⟨⟨?_, ?_, ?_⟩, ?_⟩
        · intro hcontra
          exact Bool.noConfusion hcontra
        · intro _
          exact ⟨rfl, rfl⟩
        · intro hcontra
          exact Bool.noConfusion hcontra
        · intro t ht
          have ht2 : t ∈ outq ++
              [RecordedTrack.append { rt with stop_rec_time := some ((c : Int)) }
                (List.replicate (lb - c % lb) zeroFrame)] := ht
          rw [List.mem_append, List.mem_singleton] at ht2
          rcases ht2 with hold | hnew
          · exact hQ t hold
          · subst hnew
            have hlen2 : rt.data.length + (lb - c % lb) ≠ 0 := by
              have := Nat.mod_lt c hlb
              omega
            constructor
            · simp [RecordedTrack.append, RecordedTrack.is_complete, hf1, hf5,
                List.length_append, List.length_replicate, hlen2]
            · show (rt.data ++ List.replicate (lb - c % lb) zeroFrame).length % lb = 0
              rw [List.length_append, List.length_replicate]
              have hrtlen : rt.data.length = c - f := by omega
              rw [hrtlen]
              exact pad_to_beat_mod lb c f hlb hf2 hf3

theorem capInv_record_phase (s : LoopStreamManager) (d : List Frame) (ref : Nat)
    (hcap : CapInvAt s ref) (hQ : QueueInv s) :
    CapInvAt (record_phase s d) (ref + d.length) ∧ QueueInv (record_phase s d) := by
  obtain ⟨hA, hB, hD⟩ := hcap
  obtain ⟨lb, c, q, rec, stp, buf, rt, outq, trs⟩ := s
  simp only at hA hB hD ⊢
  simp only [record_phase]
  cases rec with
  | false =>
    rw [if_neg Bool.false_ne_true]
    refine ⟨⟨?_, ?_, ?_⟩, hQ⟩
    · intro hcontra
      exact Bool.noConfusion hcontra
    · intro _
      exact hB rfl
    · exact hD
  | true =>
    rw [if_pos rfl]
    refine ⟨⟨?_, ?_, ?_⟩, ?_⟩
    · intro _
      obtain ⟨f, hf1, hf2, hf3, hf4, hf5⟩ := hA rfl
      refine ⟨f, hf1, hf2, hf3, ?_, hf5⟩
      show (rt.data ++ d).length + f = ref + d.length
      rw [List.length_append]
      omega
    · intro hcontra
      exact Bool.noConfusion hcontra
    · exact hD
    · exact fun t ht => hQ t ht

theorem capInv_drain_phase (s : LoopStreamManager) (m : Nat)
    (hlb : 0 < s.len_beat)
    (hcap : CapInvAt s (s.current_frame + m)) (hQ : QueueInv s) :
    CapInvAt (drain_phase s m) (s.current_frame + m) ∧
      QueueInv (drain_phase s m) := by
  obtain ⟨hA, hB, hD⟩ := hcap
  obtain ⟨lb, c, q, rec, stp, buf, rt, outq, trs⟩ := s
  simp only at hA hB hD hlb ⊢
  simp only [drain_phase]
  cases stp with
  | false =>
    rw [if_neg (by simp)]
    exact ⟨⟨hA, hB, hD⟩, hQ⟩
  | true =>
    have hrec : rec = true := by
      cases rec with
      | false => exact absurd (hB rfl).2 (by simp)
      | true => rfl
    subst hrec
    obtain ⟨f, hf1, hf2, hf3, hf4, hf5⟩ := hA rfl
    rcases hob : on_beat c lb m with _ | _
    · rw [if_neg (by simp)]
      exact ⟨⟨hA, hB, hD⟩, hQ⟩
    · have honb : lb ≤ c % lb + m := by
        simpa [on_beat] using hob
      rw [if_pos (by simp)]
      simp only [finish_recording, prepare_new_recording]
      refine ⟨⟨?_, ?_, ?_⟩, ?_⟩
      · intro hcontra
        exact Bool.noConfusion hcontra
      · intro _
        exact ⟨rfl, rfl⟩
      · intro hcontra
        exact Bool.noConfusion hcontra
      · intro t ht
        have ht2 : t ∈ outq ++ [{ rt with data :=
            (rt.data.take (rt.data.length - rt.data.length % lb)) }] := ht
        rw [List.mem_append, List.mem_singleton] at ht2
        rcases ht2 with hold | hnew
        · exact hQ t hold
        · subst hnew
          -- the trimmed capture is at least one whole beat long
          have hfc : f + c % lb ≤ c := aligned_add_mod_le lb c f hlb hf2 hf3
          have hlen : lb ≤ rt.data.length := by omega
          have hmlt : rt.data.length % lb < lb := Nat.mod_lt _ hlb
          have htake : (rt.data.take
              (rt.data.length - rt.data.length % lb)).length =
              rt.data.length - rt.data.length % lb := by
            rw [List.length_take]
            omega
          constructor
          · have hstop := hD rfl
            simp [RecordedTrack.is_complete, hf1, hf5, hstop, htake]
            omega
          · show (rt.data.take
                (rt.data.length - rt.data.length % lb)).length % lb = 0
            rw [htake]
            exact trim_mod lb rt.data.length

theorem capInv_shift (s : LoopStreamManager) (buf2 : AudioCircularBuffer) (m : Nat)
    (h : CapInvAt s (s.current_frame + m)) :
    CapInvAt { s with last_beat := buf2, current_frame := s.current_frame + m }
      (s.current_frame + m) := by
  obtain ⟨hA, hB, hD⟩ := h
  refine ⟨?_, hB, hD⟩
  intro hr
  obtain ⟨f, h1, h2, h3, h4, h5⟩ := hA hr
  exact ⟨f, h1, h2, Nat.le_trans h3 (Nat.le_add_right _ _), h4, h5⟩

theorem recInv_cycle (s : LoopStreamManager) (d : List Frame) (uf : Bool)
    (hinv : RecInv s) (hd : d.length ≤ s.len_beat)
    (hadm : uf = false → eventAdmissibleB s = true) :
    RecInv ((callback s d uf).fst) := by
  cases uf with
  | true => exact hinv
  | false =>
    obtain ⟨hbuf, hcap, hQ⟩ := hinv
    obtain ⟨hlb, hblen, hbdata, hbidx⟩ := hbuf
    obtain ⟨hc1, hq1⟩ := capInv_handle_event s ⟨hlb, hblen, hbdata, hbidx⟩
      hcap hQ (hadm rfl)
    obtain ⟨helb, hecf, hebb, -⟩ := handle_event_fields s
    obtain ⟨hrlb, hrcf, hrbb, -, -⟩ := record_phase_fields (handle_event s) d
    obtain ⟨hdlb, hdcf, hdbb, -⟩ :=
      drain_phase_fields (record_phase (handle_event s) d) d.length
    -- abbreviating the three phase states
    set s1 := handle_event s with hs1
    set s2 := record_phase s1 d with hs2
    set s3 := drain_phase s2 d.length with hs3
    have e1 : s3.len_beat = s.len_beat := by rw [hdlb, hrlb, helb]
    have e2 : s3.current_frame = s.current_frame := by rw [hdcf, hrcf, hecf]
    have e3 : s3.last_beat = s.last_beat := by rw [hdbb, hrbb, hebb]
    -- capture invariant through phases 2 and 3
    obtain ⟨hc2, hq2⟩ := capInv_record_phase s1 d s.current_frame hc1 hq1
    have hc2' : CapInvAt s2 (s2.current_frame + d.length) := by
      rw [hrcf, hecf]; exact hc2
    obtain ⟨hc3, hq3⟩ := capInv_drain_phase s2 d.length
      (by rw [hrlb, helb]; exact hlb) hc2' hq2
    have hc3' : CapInvAt s3 (s3.current_frame + d.length) := by
      rw [hdcf]; exact hc3
    -- the final state of the cycle
    show RecInv { s3 with
      last_beat := s3.last_beat.writeCore d
      current_frame := s3.current_frame + d.length }
    refine ⟨⟨?_, ?_, ?_, ?_⟩, ?_, ?_⟩
    · show 0 < s3.len_beat
      rw [e1]; exact hlb
    · show (s3.last_beat.writeCore d).length = s3.len_beat
      rw [writeCore_length_eq, e3, e1, hblen]
    · show (s3.last_beat.writeCore d).data.length = s3.len_beat
      rw [e3, e1]
      rw [writeCore_data_length s.last_beat d (by rw [hbdata, hblen])
        (by rw [hbidx, hblen]; exact Nat.le_of_lt (Nat.mod_lt _ hlb))
        (by rw [hblen]; exact hd)]
      exact hblen
    · show (s3.last_beat.writeCore d).index =
        (s3.current_frame + d.length) % s3.len_beat
      rw [e3, e2, e1, writeCore_index_eq, hblen, hbidx, Nat.mod_add_mod]
    · exact capInv_shift s3 (s3.last_beat.writeCore d) d.length hc3'
    · exact hq3

theorem recInv_applyStep (s : LoopStreamManager) (st : EngineStep)
    (hinv : RecInv s)
    (hok : ∀ d uf, st = EngineStep.cycle d uf →
      d.length ≤ s.len_beat ∧ (uf = false → eventAdmissibleB s = true)) :
    RecInv (applyStep s st) := by
  cases st with
  | push e =>
    obtain ⟨hbuf, hcap, hQ⟩ := hinv
    exact ⟨hbuf, hcap, hQ⟩
  | updateTracks ts =>
    obtain ⟨hbuf, hcap, hQ⟩ := hinv
    exact ⟨hbuf, hcap, hQ⟩
  | cycle d uf =>
    obtain ⟨h1, h2⟩ := hok d uf rfl
    exact recInv_cycle s d uf hinv h1 h2

theorem disciplinedRun_push (s : LoopStreamManager) (e : UserRecordingEvents)
    (rest : List EngineStep) :
    DisciplinedRun s (EngineStep.push e :: rest) =
      DisciplinedRun (applyStep s (EngineStep.push e)) rest := rfl

theorem disciplinedRun_updateTracks (s : LoopStreamManager)
    (ts : List PlayingTrack) (rest : List EngineStep) :
    DisciplinedRun s (EngineStep.updateTracks ts :: rest) =
      DisciplinedRun (applyStep s (EngineStep.updateTracks ts)) rest := rfl

theorem disciplinedRun_cycle (s : LoopStreamManager) (d : List Frame)
    (uf : Bool) (rest : List EngineStep) :
    DisciplinedRun s (EngineStep.cycle d uf :: rest) =
      (decide (d.length ≤ s.len_beat) && (uf || eventAdmissibleB s) &&
        DisciplinedRun (applyStep s (EngineStep.cycle d uf)) rest) := rfl

theorem recInv_run (steps : List EngineStep) :
    ∀ s, RecInv s → DisciplinedRun s steps = true → RecInv (run s steps) := by
  induction steps with
  | nil => intro s h _; exact h
  | cons st rest ih =>
    intro s h hrun
    have hstep : RecInv (applyStep s st) ∧ DisciplinedRun (applyStep s st) rest = true := by
      cases st with
      | push e =>
        rw [disciplinedRun_push] at hrun
        exact ⟨recInv_applyStep s _ h (by intro d uf hcontra; cases hcontra), hrun⟩
      | updateTracks ts =>
        rw [disciplinedRun_updateTracks] at hrun
        exact ⟨recInv_applyStep s _ h (by intro d uf hcontra; cases hcontra), hrun⟩
      | cycle d uf =>
        rw [disciplinedRun_cycle] at hrun
        rw [Bool.and_eq_true, Bool.and_eq_true] at hrun
        obtain ⟨⟨hlen, hadm⟩, hrest⟩ := hrun
        refine ⟨recInv_applyStep s _ h ?_, hrest⟩
        intro d2 uf2 heq
        cases heq
        refine ⟨by simpa using hlen, ?_⟩
        intro huf
        subst huf
        simpa using hadm
    exact ih (applyStep s st) hstep.1 hstep.2

theorem recInv_init (lb : Nat) (bufInit : List Frame)
    (hlb : 0 < lb) (hbuf : bufInit.length = lb) :
    RecInv (initState lb bufInit) := by
  refine ⟨⟨hlb, rfl, hbuf, by simp [initState]⟩, ⟨?_, ?_, ?_⟩, ?_⟩
  · intro hcontra
    exact Bool.noConfusion hcontra
  · intro _
    exact ⟨rfl, rfl⟩
  · intro hcontra
    exact Bool.noConfusion hcontra
  · intro t ht
    exact absurd ht (List.not_mem_nil t)

theorem run_len_beat (steps : List EngineStep) :
    ∀ s : LoopStreamManager, (run s steps).len_beat = s.len_beat := by
  induction steps with
  | nil => intro s; rfl
  | cons st rest ih =>
    intro s
    show (run (applyStep s st) rest).len_beat = s.len_beat
    rw [ih, applyStep_len_beat]

theorem bufInv_cycle (s : LoopStreamManager) (d : List Frame) (uf : Bool)
    (hbuf : BufInv s) (hd : d.length ≤ s.len_beat) :
    BufInv ((callback s d uf).fst) := by
  cases uf with
  | true => exact hbuf
  | false =>
    obtain ⟨hlb, hblen, hbdata, hbidx⟩ := hbuf
    obtain ⟨helb, hecf, hebb, -⟩ := handle_event_fields s
    obtain ⟨hrlb, hrcf, hrbb, -, -⟩ := record_phase_fields (handle_event s) d
    obtain ⟨hdlb, hdcf, hdbb, -⟩ :=
      drain_phase_fields (record_phase (handle_event s) d) d.length
    set s3 := drain_phase (record_phase (handle_event s) d) d.length with hs3
    have e1 : s3.len_beat = s.len_beat := by rw [hdlb, hrlb, helb]
    have e2 : s3.current_frame = s.current_frame := by rw [hdcf, hrcf, hecf]
    have e3 : s3.last_beat = s.last_beat := by rw [hdbb, hrbb, hebb]
    show BufInv { s3 with
      last_beat := s3.last_beat.writeCore d
      current_frame := s3.current_frame + d.length }
    refine ⟨?_, ?_, ?_, ?_⟩
    · show 0 < s3.len_beat
      rw [e1]; exact hlb
    · show (s3.last_beat.writeCore d).length = s3.len_beat
      rw [writeCore_length_eq, e3, e1, hblen]
    · show (s3.last_beat.writeCore d).data.length = s3.len_beat
      rw [e3, e1]
      rw [writeCore_data_length s.last_beat d (by rw [hbdata, hblen])
        (by rw [hbidx, hblen]; exact Nat.le_of_lt (Nat.mod_lt _ hlb))
        (by rw [hblen]; exact hd)]
      exact hblen
    · show (s3.last_beat.writeCore d).index =
        (s3.current_frame + d.length) % s3.len_beat
      rw [e3, e2, e1, writeCore_index_eq, hblen, hbidx, Nat.mod_add_mod]

theorem boundedRun_push (lb : Nat) (e : UserRecordingEvents)
    (rest : List EngineStep) :
    BoundedRun lb (EngineStep.push e :: rest) = BoundedRun lb rest := rfl

theorem boundedRun_updateTracks (lb : Nat) (ts : List PlayingTrack)
    (rest : List EngineStep) :
    BoundedRun lb (EngineStep.updateTracks ts :: rest) = BoundedRun lb rest := rfl

theorem boundedRun_cycle (lb : Nat) (d : List Frame) (uf : Bool)
    (rest : List EngineStep) :
    BoundedRun lb (EngineStep.cycle d uf :: rest) =
      (decide (d.length ≤ lb) && BoundedRun lb rest) := rfl

theorem bufInv_run (steps : List EngineStep) :
    ∀ s : LoopStreamManager, BufInv s → BoundedRun s.len_beat steps = true →
      BufInv (run s steps) := by
  induction steps with
  | nil => intro s h _; exact h
  | cons st rest ih =>
    intro s h hrun
    have hlbstep := applyStep_len_beat s st
    cases st with
    | push e =>
      rw [boundedRun_push] at hrun
      refine ih (applyStep s (EngineStep.push e)) ?_ (by rw [hlbstep]; exact hrun)
      obtain ⟨h1, h2, h3, h4⟩ := h
      exact ⟨h1, h2, h3, h4⟩
    | updateTracks ts =>
      rw [boundedRun_updateTracks] at hrun
      refine ih (applyStep s (EngineStep.updateTracks ts)) ?_
        (by rw [hlbstep]; exact hrun)
      obtain ⟨h1, h2, h3, h4⟩ := h
      exact ⟨h1, h2, h3, h4⟩
    | cycle d uf =>
      rw [boundedRun_cycle, Bool.and_eq_true] at hrun
      obtain ⟨hlen, hrest⟩ := hrun
      refine ih (applyStep s (EngineStep.cycle d uf)) ?_
        (by rw [hlbstep]; exact hrest)
      exact bufInv_cycle s d uf h (by simpa using hlen)

/-- At a consumed Start, the new capture's `first_frame_time` is
`current_frame - position()`, which the cursor invariant makes a whole
multiple of the beat length. -/
theorem start_first_frame_aligned (s : LoopStreamManager) (d : List Frame)
    (hbuf : BufInv s)
    (hhead : s.event_queue.head? = some UserRecordingEvents.START) :
    ∃ k, ((callback s d false).fst).recorded_track.first_frame_time =
      some ((s.len_beat * k : Nat) : Int) := by
  obtain ⟨hlb, hblen, hbdata, hbidx⟩ := hbuf
  obtain ⟨lb, c, q, rec, stp, buf, rt, outq, trs⟩ := s
  simp only at hlb hblen hbdata hbidx hhead ⊢
  rcases q with _ | ⟨e, rest⟩
  · exact absurd hhead (by simp)
  · have he : e = UserRecordingEvents.START := by
      simpa using hhead
    subst he
    refine ⟨c / lb, ?_⟩
    have hval : lb * (c / lb) = c - c % lb := by
      have := Nat.div_add_mod c lb
      omega
    cases stp with
    | false =>
      show some ((c : Int) - (buf.position : Int)) = some (((lb * (c / lb) : Nat) : Int))
      rw [hval, Nat.cast_sub (Nat.mod_le c lb), AudioCircularBuffer.position, hbidx]
    | true =>
      show some ((c : Int) - (buf.position : Int)) = some (((lb * (c / lb) : Nat) : Int))
      rw [hval, Nat.cast_sub (Nat.mod_le c lb), AudioCircularBuffer.position, hbidx]

/-! C4: a Stop consumed in the first half of a beat finalizes in the
same cycle. -/

/-- C4: when a Stop command is consumed at a cycle with
`current_frame mod len_beat ≤ len_beat/2` (midpoint inclusive), the
capture is finalized in that same cycle: its `stop_rec_time` is set to
`current_frame`, exactly `len_beat - current_frame mod len_beat` zero
frames are appended, the track is pushed to the output queue, and the
machine returns to Idle (both flags cleared). -/
theorem C4_stop_first_half_finalizes_immediately (s : LoopStreamManager)
    (d : List Frame) (rest : List UserRecordingEvents)
    (hq : s.event_queue = UserRecordingEvents.STOP :: rest)
    (hhalf : s.current_frame % s.len_beat ≤ s.len_beat / 2) :
    ((callback s d false).fst).recorded_tracks_queue =
      s.recorded_tracks_queue ++
        [{ s.recorded_track with
            stop_rec_time := some ((s.current_frame : Int))
            data := (s.recorded_track.data ++ List.replicate
              (s.len_beat - s.current_frame % s.len_beat) zeroFrame) }] ∧
    ((callback s d false).fst).recording = false ∧
    ((callback s d false).fst).stopping_recording = false := by
  obtain ⟨lb, c, q, rec, stp, buf, rt, outq, trs⟩ := s
  simp only at hq hhalf ⊢
  subst hq
  have hcond : is_in_first_half_of_beat c lb = true := by
    simp [is_in_first_half_of_beat, hhalf]
  have hstop : stop_recording ⟨lb, c, rest, rec, stp, buf, rt, outq, trs⟩ =
      ⟨lb, c, rest, false, false, buf, {},
        outq ++ [{ rt with
          stop_rec_time := some ((c : Int))
          data := (rt.data ++ List.replicate (lb - c % lb) zeroFrame) }], trs⟩ := by
    simp only [stop_recording]
    rw [hcond, if_pos rfl]
    rfl
  have hhe : handle_event
      ⟨lb, c, UserRecordingEvents.STOP :: rest, rec, stp, buf, rt, outq, trs⟩ =
      ⟨lb, c, rest, false, false, buf, {},
        outq ++ [{ rt with
          stop_rec_time := some ((c : Int))
          data := (rt.data ++ List.replicate (lb - c % lb) zeroFrame) }], trs⟩ := by
    rw [show handle_event
        ⟨lb, c, UserRecordingEvents.STOP :: rest, rec, stp, buf, rt, outq, trs⟩ =
      stop_recording ⟨lb, c, rest, rec, stp, buf, rt, outq, trs⟩ from rfl, hstop]
  refine ⟨?_, ?_, ?_⟩
  · show (drain_phase (record_phase (handle_event
        ⟨lb, c, UserRecordingEvents.STOP :: rest, rec, stp, buf, rt, outq,
          trs⟩) d) d.length).recorded_tracks_queue = _
    rw [hhe]
    rfl
  · show (drain_phase (record_phase (handle_event
        ⟨lb, c, UserRecordingEvents.STOP :: rest, rec, stp, buf, rt, outq,
          trs⟩) d) d.length).recording = false
    rw [hhe]
    rfl
  · show (drain_phase (record_phase (handle_event
        ⟨lb, c, UserRecordingEvents.STOP :: rest, rec, stp, buf, rt, outq,
          trs⟩) d) d.length).stopping_recording = false
    rw [hhe]
    rfl

/-- Witness for C4 at the spec's scenario: `len_beat = 22050`, Stop at
`current_frame = 27050` (first half: `5000 ≤ 11025`): `stop_rec_time =
27050` and `22050 - 27050 % 22050 = 17050` zero frames are appended. -/
theorem C4_witness :
    (c4s.event_queue = UserRecordingEvents.STOP :: [] ∧
      c4s.current_frame % c4s.len_beat ≤ c4s.len_beat / 2 ∧
      c4s.len_beat - c4s.current_frame % c4s.len_beat = 17050 ∧
      c4s.current_frame = 27050) ∧
    (((callback c4s [zeroFrame] false).fst).recorded_tracks_queue =
      c4s.recorded_tracks_queue ++
        [{ c4s.recorded_track with
            stop_rec_time := some ((c4s.current_frame : Int))
            data := (c4s.recorded_track.data ++ List.replicate
              (c4s.len_beat - c4s.current_frame % c4s.len_beat) zeroFrame) }] ∧
      ((callback c4s [zeroFrame] false).fst).recording = false ∧
      ((callback c4s [zeroFrame] false).fst).stopping_recording = false) := by
  refine ⟨⟨rfl, by decide, by decide, rfl⟩, ?_⟩
  exact C4_stop_first_half_finalizes_immediately c4s [zeroFrame] [] rfl (by decide)

/-! C5: finalized captures are whole numbers of beats — but only under
disciplined command use; a Stop with no recording active finalizes a
fragment. -/

/-- Counterexample to C5 as stated: with `len_beat = 4`, a Stop consumed
at `current_frame = 2` with no recording active pads the fresh empty
capture with `4 - 2 = 2` zero frames and pushes a track of length 2,
which is not a multiple of 4. -/
theorem C5_counterexample :
    ((run (initState 4 (List.replicate 4 zeroFrame))
        c5steps).recorded_tracks_queue.map (fun t => t.data.length % 4)) = [2] ∧
      (2 : Nat) ≠ 0 := by
  refine ⟨by decide, by decide⟩

/-- C5 amended: in every execution with `len_beat > 0` whose cycles
process at most `len_beat` frames and whose commands are consumed in a
disciplined way (each Stop while a recording is active, each Start while
idle or draining — never while plainly recording), the data of every
`RecordedTrack` pushed to the output queue is an exact multiple of
`len_beat`, via both the immediate first-half path and the draining trim
path. -/
theorem C5_finalized_lengths_whole_beats (lb : Nat) (bufInit : List Frame)
    (steps : List EngineStep) (hlb : 0 < lb) (hbuf : bufInit.length = lb)
    (hdisc : DisciplinedRun (initState lb bufInit) steps = true) :
    ∀ t ∈ (run (initState lb bufInit) steps).recorded_tracks_queue,
      t.data.length % lb = 0 := by
  have h := recInv_run steps (initState lb bufInit)
    (recInv_init lb bufInit hlb hbuf) hdisc
  intro t ht
  have h2 := h.2.2 t ht
  rw [run_len_beat] at h2
  exact h2.2

/-- Witness for the amended C5: a disciplined Start/Stop pair over beat
length 4 finalizes one track of exactly 4 frames. -/
theorem C5_witness :
    (0 < 4 ∧ (List.replicate 4 zeroFrame).length = 4 ∧
      DisciplinedRun (initState 4 (List.replicate 4 zeroFrame)) discSteps = true) ∧
    (∀ t ∈ (run (initState 4 (List.replicate 4 zeroFrame))
        discSteps).recorded_tracks_queue, t.data.length % 4 = 0) := by
  refine ⟨⟨by decide, by decide, by decide⟩, ?_⟩
  exact C5_finalized_lengths_whole_beats 4 (List.replicate 4 zeroFrame) discSteps
    (by decide) (by decide) (by decide)

/-! C8: finalized captures are complete — again only under disciplined
command use. -/

/-- Counterexample to C8 as stated: a Stop consumed with no prior Start
(2 positive frames per cycle) pushes a capture whose `first_frame_time`
and `start_rec_time` are still `None`, so `is_complete()` is false and
`post_production` on it raises `IncompleteRecordedTrackError`. -/
theorem C8_counterexample :
    ((run (initState 4 (List.replicate 4 zeroFrame))
        c8steps).recorded_tracks_queue.map RecordedTrack.is_complete) = [false] := by
  decide

/-- C8 amended: in every execution with `len_beat > 0` whose cycles
process at most `len_beat` frames and whose commands are disciplined
(each Stop consumed while a recording is active, each Start while idle
or draining), every `RecordedTrack` pushed to the output queue satisfies
`is_complete()`, so the `IncompleteRecordedTrackError` branch of
`post_production` is unreachable for tracks obtained from such runs. -/
theorem C8_pushed_tracks_complete (lb : Nat) (bufInit : List Frame)
    (steps : List EngineStep) (hlb : 0 < lb) (hbuf : bufInit.length = lb)
    (hdisc : DisciplinedRun (initState lb bufInit) steps = true) :
    ∀ t ∈ (run (initState lb bufInit) steps).recorded_tracks_queue,
      t.is_complete = true := by
  have h := recInv_run steps (initState lb bufInit)
    (recInv_init lb bufInit hlb hbuf) hdisc
  intro t ht
  exact (h.2.2 t ht).1

/-- Witness for the amended C8: the disciplined run of `discSteps`
pushes exactly one complete track. -/
theorem C8_witness :
    (0 < 4 ∧ (List.replicate 4 zeroFrame).length = 4 ∧
      DisciplinedRun (initState 4 (List.replicate 4 zeroFrame)) discSteps = true) ∧
    (∀ t ∈ (run (initState 4 (List.replicate 4 zeroFrame))
        discSteps).recorded_tracks_queue, t.is_complete = true) := by
  refine ⟨⟨by decide, by decide, by decide⟩, ?_⟩
  exact C8_pushed_tracks_complete 4 (List.replicate 4 zeroFrame) discSteps
    (by decide) (by decide) (by decide)

/-! C6: a Start during an unfinished recording. -/

/-- Counterexample to C6 as stated: in the run `c6steps` the second
Start is consumed while *plainly recording* (no Stop pending), and the
code does not reset the capture — it overwrites the timestamps and
appends on top.  The most recent Start (at frame 4) has an empty
pre-roll seed and is followed only by `(3,3)` input frames and `(0,0)`
padding, yet the single emitted track also contains the `(1,1)` and
`(2,2)` frames captured under the earlier Start. -/
theorem C6_counterexample :
    ((run (initState 4 (List.replicate 4 zeroFrame))
        c6steps).recorded_tracks_queue.map RecordedTrack.data) =
      [[((1 : Int), (1 : Int)), (1, 1), (2, 2), (2, 2), (3, 3), (3, 3),
        (0, 0), (0, 0)]] ∧
    ¬ (∀ x ∈ ([((1 : Int), (1 : Int)), (1, 1), (2, 2), (2, 2), (3, 3), (3, 3),
        (0, 0), (0, 0)] : List Frame), x = (3, 3) ∨ x = zeroFrame) := by
  refine ⟨by decide, by decide⟩

/-- C6 amended: when a Start is consumed while the machine is *draining*
(a Stop received, finalize pending — the situation the spec describes),
the unfinished capture is discarded entirely: the state after the cycle
does not depend on the superseded capture at all, so no track pushed
later can contain any of its frames.  (A Start consumed while plainly
recording instead keeps the old data, as the counterexample shows.) -/
theorem C6_start_while_draining_discards (s : LoopStreamManager)
    (t1 t2 : RecordedTrack) (d : List Frame) (rest : List UserRecordingEvents)
    (hq : s.event_queue = UserRecordingEvents.START :: rest)
    (hs : s.stopping_recording = true) :
    callback { s with recorded_track := t1 } d false =
      callback { s with recorded_track := t2 } d false := by
  obtain ⟨lb, c, q, rec, stp, buf, rt, outq, trs⟩ := s
  simp only at hq hs
  subst hq
  subst hs
  rfl

/-- Witness for the amended C6: two entirely different superseded
captures lead to identical post-cycle states. -/
theorem C6_witness :
    (c6s.event_queue = UserRecordingEvents.START :: [] ∧
      c6s.stopping_recording = true) ∧
    callback { c6s with recorded_track := c6t1 }
        [((9 : Int), (9 : Int))] false =
      callback { c6s with recorded_track := c6t2 }
        [((9 : Int), (9 : Int))] false := by
  refine ⟨⟨rfl, rfl⟩, ?_⟩
  exact C6_start_while_draining_discards c6s c6t1 c6t2
    [((9 : Int), (9 : Int))] [] rfl rfl

/-! C10: the pre-roll cursor tracks the global frame counter modulo the
beat length, so Starts are seeded on beat boundaries. -/

/-- C10: in every state reached by bounded cycles (at most `len_beat`
frames each, the configured block-size guarantee), the pre-roll buffer's
write cursor equals `current_frame mod len_beat` (both advance together
on non-underflow cycles, neither on underflow); consequently, whenever a
Start is at the head of the queue, the capture seeded by the next cycle
has `first_frame_time = current_frame - position()`, an exact multiple
of `len_beat`. -/
theorem C10_preroll_cursor_beat_aligned (lb : Nat) (bufInit : List Frame)
    (steps : List EngineStep) (d : List Frame)
    (hlb : 0 < lb) (hbuf : bufInit.length = lb)
    (hsteps : BoundedRun lb steps = true) :
    (run (initState lb bufInit) steps).last_beat.index =
      (run (initState lb bufInit) steps).current_frame %
        (run (initState lb bufInit) steps).len_beat ∧
    ((run (initState lb bufInit) steps).event_queue.head? =
        some UserRecordingEvents.START →
      ∃ k, ((callback (run (initState lb bufInit) steps) d
          false).fst).recorded_track.first_frame_time =
        some ((lb * k : Nat) : Int)) := by
  have hb : BufInv (run (initState lb bufInit) steps) := by
    refine bufInv_run steps (initState lb bufInit)
      ⟨hlb, rfl, hbuf, by simp [initState]⟩ hsteps
  constructor
  · exact hb.2.2.2
  · intro hhead
    obtain ⟨k, hk⟩ := start_first_frame_aligned
      (run (initState lb bufInit) steps) d hb hhead
    rw [run_len_beat] at hk
    exact ⟨k, hk⟩

/-- Witness for C10: after one 1-frame cycle and a pushed Start, the
cursor is `1 = 1 % 4` and consuming the Start yields
`first_frame_time = 0 = 4 * 0`. -/
theorem C10_witness :
    (0 < 4 ∧ (List.replicate 4 zeroFrame).length = 4 ∧
      BoundedRun 4 c10steps = true) ∧
    ((run (initState 4 (List.replicate 4 zeroFrame)) c10steps).last_beat.index =
      (run (initState 4 (List.replicate 4 zeroFrame)) c10steps).current_frame %
        (run (initState 4 (List.replicate 4 zeroFrame)) c10steps).len_beat ∧
    ((run (initState 4 (List.replicate 4 zeroFrame)) c10steps).event_queue.head? =
        some UserRecordingEvents.START →
      ∃ k, ((callback (run (initState 4 (List.replicate 4 zeroFrame)) c10steps)
          [zeroFrame] false).fst).recorded_track.first_frame_time =
        some ((4 * k : Nat) : Int))) := by
  refine ⟨⟨by decide, by decide, by decide⟩, ?_⟩
  exact C10_preroll_cursor_beat_aligned 4 (List.replicate 4 zeroFrame) c10steps
    [zeroFrame] (by decide) (by decide) (by decide)

/-! C7: output underflow. -/

/-- C7: a callback invocation whose status reports output underflow
emits an all-zero output block of the cycle's length and leaves the
entire engine state unchanged — the command queue is not popped, the
recording/draining flags, capture, pre-roll buffer and global frame
counter are all untouched. -/
theorem C7_underflow_emits_silence_and_changes_nothing
    (s : LoopStreamManager) (indata : List Frame) :
    callback s indata true = (s, List.replicate indata.length zeroFrame) := rfl

end Looper
